import Mathlib

/-!
Verification of the LiveRooms signaling core.

Server side (`src/server/src/index.ts`): an in-memory room registry driven by
socket.io.  We embed the adapter's room-membership map as a function from room
identifiers to the list of member sockets in arrival order, and the per-socket
`socket.data.currentRoom` field as a partial map from sockets to room names.
The `join`, `offer`/`answer`/`ice-candidate` forwarding, and `disconnect`
handlers are translated directly; message emission is made explicit as a list
of (recipient, message) pairs.

Client side (`src/frontend/src/Room.tsx`): the negotiation state machine built
on an `RTCPeerConnection`.  The peer connection object itself is an external
collaborator (spec section 6 treats descriptors as opaque and the transport
engine as excluded), so its signaling-state transitions on
`setRemoteDescription` / `setLocalDescription` are modelled with the standard
WebRTC semantics; the repository's handler logic around it is translated
directly.  Ghost fields record the candidates applied to the connection and
the messages emitted on the socket, in order.
-/

/-! ## Server model -/

/-- Room identifier actually used by the join handler:
`String(roomIdInput || "default_fallback_room")` maps the falsy string to the
fixed fallback room. -/
def targetOf (input : String) : String :=
  if input = "" then "default_fallback_room" else input

/-- Server state: the socket.io adapter's rooms map (arrival-ordered member
lists, absent room = empty list) and each socket's `data.currentRoom`. -/
structure ServerState where
  rooms : String → List Nat
  currentRoom : Nat → Option String

/-- The server starts with no rooms and no associations. -/
def initialServer : ServerState :=
  { rooms := fun _ => [], currentRoom := fun _ => none }

/-- `socket.leave(r)`: remove the socket from room `r` in the adapter. -/
def leaveAdapter (s : ServerState) (sid : Nat) (r : String) : ServerState :=
  { s with rooms := fun q => if q = r then (s.rooms r).filter (fun z => z ≠ sid) else s.rooms q }

/-- `socket.join(r)`: add the socket to room `r` (idempotent, appends). -/
def joinAdapter (s : ServerState) (sid : Nat) (r : String) : ServerState :=
  { s with rooms := fun q =>
      if q = r then (if sid ∈ s.rooms r then s.rooms r else s.rooms r ++ [sid])
      else s.rooms q }

/-- `socket.data.currentRoom = r`. -/
def setCurrentRoom (s : ServerState) (sid : Nat) (r : String) : ServerState :=
  { s with currentRoom := fun x => if x = sid then some r else s.currentRoom x }

/-- `socket.data.currentRoom = undefined`. -/
def clearCurrentRoom (s : ServerState) (sid : Nat) : ServerState :=
  { s with currentRoom := fun x => if x = sid then none else s.currentRoom x }

/-- Messages the server can emit to a client (`ServerToClientEvents`); the
negotiation payloads are opaque strings. -/
inductive ServerMsg where
  | initiate_offer
  | peer_ready
  | peer_disconnected
  | offer (payload : String)
  | answer (payload : String)
  | candidate (payload : String)
deriving DecidableEq, Repr

/-- `socket.to(r).emit(m)`: deliver `m` to every member of room `r` except the
sender. -/
def emitToRoom (s : ServerState) (r : String) (sender : Nat) (m : ServerMsg) :
    List (Nat × ServerMsg) :=
  ((s.rooms r).filter (fun z => z ≠ sender)).map (fun z => (z, m))

/-- First half of the `join` handler (`src/server/src/index.ts`, lines
51-56): if the socket has a previous room different from the target, notify
that room with `peer_disconnected` and leave it (the association field is not
touched here, exactly as in the source). -/
def joinPhase1 (s : ServerState) (sid : Nat) (t : String) :
    ServerState × List (Nat × ServerMsg) :=
  match s.currentRoom sid with
  | some pr =>
      if pr ≠ t then
        (leaveAdapter s sid pr, emitToRoom s pr sid ServerMsg.peer_disconnected)
      else (s, [])
  | none => (s, [])

/-- Second half of the `join` handler (lines 58-97): reject if the target
already has two members; otherwise join, record the association, and on the
transition to size two send `initiate_offer` to the joiner and `peer_ready`
to the other occupant. -/
def joinPhase2 (s1 : ServerState) (sid : Nat) (t : String) :
    ServerState × List (Nat × ServerMsg) :=
  if 2 ≤ (s1.rooms t).length then (s1, [])
  else
    let s2 := setCurrentRoom (joinAdapter s1 sid t) sid t
    if (s2.rooms t).length = 2 then
      (s2, (sid, ServerMsg.initiate_offer) :: emitToRoom s2 t sid ServerMsg.peer_ready)
    else (s2, [])

/-- The whole `join` handler: resolve the fallback room, run both phases, and
concatenate the emitted (recipient, message) lists in order. -/
def serverJoin (s : ServerState) (sid : Nat) (input : String) :
    ServerState × List (Nat × ServerMsg) :=
  let p1 := joinPhase1 s sid (targetOf input)
  let p2 := joinPhase2 p1.1 sid (targetOf input)
  (p2.1, p1.2 ++ p2.2)

/-- The `forwardEvent` helper (lines 100-116): if the sender has a current
room, broadcast the payload unchanged to that room excluding the sender,
otherwise drop it. -/
def forwardEvent (s : ServerState) (sid : Nat) (m : ServerMsg) : List (Nat × ServerMsg) :=
  match s.currentRoom sid with
  | some r => emitToRoom s r sid m
  | none => []

/-- The `disconnect` handler (lines 124-138): socket.io has already removed
the socket from every room when the handler runs; the handler then notifies
the recorded current room and clears the association. -/
def serverDisconnect (s : ServerState) (sid : Nat) :
    ServerState × List (Nat × ServerMsg) :=
  let s1 : ServerState :=
    { rooms := fun q => (s.rooms q).filter (fun z => z ≠ sid), currentRoom := s.currentRoom }
  let out :=
    match s.currentRoom sid with
    | some r => emitToRoom s1 r sid ServerMsg.peer_disconnected
    | none => []
  (clearCurrentRoom s1 sid, out)

/-- State-changing operations a client can trigger on the registry
(forwarding never changes the registry state). -/
inductive ServerOp where
  | join (sid : Nat) (roomId : String)
  | disconnect (sid : Nat)

/-- Apply one operation, discarding the emitted messages. -/
def applyOp (s : ServerState) : ServerOp → ServerState
  | ServerOp.join sid r => (serverJoin s sid r).1
  | ServerOp.disconnect sid => (serverDisconnect s sid).1

/-- Run a sequence of operations from a given state. -/
def runFrom (s : ServerState) (ops : List ServerOp) : ServerState :=
  ops.foldl applyOp s

/-- States reachable from server start. -/
def runOps (ops : List ServerOp) : ServerState :=
  runFrom initialServer ops

/-- Registry invariant: membership is consistent with the recorded
association, member lists have no duplicates, and rooms hold at most two
members. -/
def RegistryInv (s : ServerState) : Prop :=
  (∀ x r, x ∈ s.rooms r → s.currentRoom x = some r) ∧
  (∀ r, (s.rooms r).Nodup) ∧
  (∀ r, (s.rooms r).length ≤ 2)

theorem registryInv_initial : RegistryInv initialServer := by
  refine ⟨?_, ?_, ?_⟩ <;> intro x <;> simp [initialServer]

/-! ### Projection equations for the server primitives -/

theorem leaveAdapter_rooms (s : ServerState) (sid : Nat) (r q : String) :
    (leaveAdapter s sid r).rooms q =
      if q = r then (s.rooms r).filter (fun z => z ≠ sid) else s.rooms q := rfl

@[simp] theorem leaveAdapter_cur (s : ServerState) (sid : Nat) (r : String) :
    (leaveAdapter s sid r).currentRoom = s.currentRoom := rfl

theorem joinAdapter_rooms (s : ServerState) (sid : Nat) (r q : String) :
    (joinAdapter s sid r).rooms q =
      if q = r then (if sid ∈ s.rooms r then s.rooms r else s.rooms r ++ [sid])
      else s.rooms q := rfl

@[simp] theorem joinAdapter_cur (s : ServerState) (sid : Nat) (r : String) :
    (joinAdapter s sid r).currentRoom = s.currentRoom := rfl

@[simp] theorem setCurrentRoom_rooms (s : ServerState) (sid : Nat) (r : String) :
    (setCurrentRoom s sid r).rooms = s.rooms := rfl

theorem setCurrentRoom_cur (s : ServerState) (sid x : Nat) (r : String) :
    (setCurrentRoom s sid r).currentRoom x =
      if x = sid then some r else s.currentRoom x := rfl

theorem serverJoin_fst (s : ServerState) (sid : Nat) (input : String) :
    (serverJoin s sid input).1 =
      (joinPhase2 (joinPhase1 s sid (targetOf input)).1 sid (targetOf input)).1 := rfl

theorem serverJoin_snd (s : ServerState) (sid : Nat) (input : String) :
    (serverJoin s sid input).2 =
      (joinPhase1 s sid (targetOf input)).2 ++
        (joinPhase2 (joinPhase1 s sid (targetOf input)).1 sid (targetOf input)).2 := rfl

theorem joinPhase1_none (s : ServerState) (sid : Nat) (t : String)
    (h : s.currentRoom sid = none) : joinPhase1 s sid t = (s, []) := by
  simp [joinPhase1, h]

theorem joinPhase1_same (s : ServerState) (sid : Nat) (t : String)
    (h : s.currentRoom sid = some t) : joinPhase1 s sid t = (s, []) := by
  simp [joinPhase1, h]

theorem joinPhase1_diff (s : ServerState) (sid : Nat) (t pr : String)
    (h : s.currentRoom sid = some pr) (hne : pr ≠ t) :
    joinPhase1 s sid t =
      (leaveAdapter s sid pr, emitToRoom s pr sid ServerMsg.peer_disconnected) := by
  simp [joinPhase1, h, hne]

theorem joinPhase2_full (s1 : ServerState) (sid : Nat) (t : String)
    (h : 2 ≤ (s1.rooms t).length) : joinPhase2 s1 sid t = (s1, []) := by
  simp [joinPhase2, h]

theorem joinPhase2_fst_notfull (s1 : ServerState) (sid : Nat) (t : String)
    (h : ¬ 2 ≤ (s1.rooms t).length) :
    (joinPhase2 s1 sid t).1 = setCurrentRoom (joinAdapter s1 sid t) sid t := by
  simp only [joinPhase2, if_neg h]
  split <;> rfl

theorem serverDisconnect_fst_rooms (s : ServerState) (sid : Nat) (q : String) :
    (serverDisconnect s sid).1.rooms q = (s.rooms q).filter (fun z => z ≠ sid) := rfl

theorem serverDisconnect_fst_cur (s : ServerState) (sid x : Nat) :
    (serverDisconnect s sid).1.currentRoom x =
      if x = sid then none else s.currentRoom x := rfl

/-! ### Invariant preservation -/

theorem registryInv_leaveAdapter (s : ServerState) (sid : Nat) (r : String)
    (h : RegistryInv s) : RegistryInv (leaveAdapter s sid r) := by
  obtain ⟨h1, h2, h3⟩ := h
  refine ⟨?_, ?_, ?_⟩
  · intro x q hx
    rw [leaveAdapter_rooms] at hx
    rw [leaveAdapter_cur]
    by_cases hq : q = r
    · rw [if_pos hq] at hx
      subst hq
      exact h1 x q (List.mem_of_mem_filter hx)
    · rw [if_neg hq] at hx
      exact h1 x q hx
  · intro q
    rw [leaveAdapter_rooms]
    by_cases hq : q = r
    · rw [if_pos hq]; exact (h2 r).filter _
    · rw [if_neg hq]; exact h2 q
  · intro q
    rw [leaveAdapter_rooms]
    by_cases hq : q = r
    · rw [if_pos hq]; exact le_trans (List.length_filter_le _ _) (h3 r)
    · rw [if_neg hq]; exact h3 q

theorem registryInv_joinSuccess (s : ServerState) (sid : Nat) (t : String)
    (h : RegistryInv s) (hlen : (s.rooms t).length ≤ 1)
    (hmem : ∀ r, sid ∈ s.rooms r → r = t) :
    RegistryInv (setCurrentRoom (joinAdapter s sid t) sid t) := by
  obtain ⟨h1, h2, h3⟩ := h
  refine ⟨?_, ?_, ?_⟩
  · intro x q hx
    rw [setCurrentRoom_rooms, joinAdapter_rooms] at hx
    rw [setCurrentRoom_cur]
    by_cases hxs : x = sid
    · subst hxs
      rw [if_pos rfl]
      by_cases hq : q = t
      · rw [hq]
      · rw [if_neg hq] at hx
        exact absurd (hmem q hx) hq
    · rw [if_neg hxs]
      by_cases hq : q = t
      · subst hq
        rw [if_pos rfl] at hx
        by_cases hin : sid ∈ s.rooms q
        · rw [if_pos hin] at hx; exact h1 x q hx
        · rw [if_neg hin] at hx
          rcases List.mem_append.mp hx with hx' | hx'
          · exact h1 x q hx'
          · exact absurd (List.mem_singleton.mp hx') hxs
      · rw [if_neg hq] at hx
        exact h1 x q hx
  · intro q
    rw [setCurrentRoom_rooms, joinAdapter_rooms]
    by_cases hq : q = t
    · rw [if_pos hq]
      by_cases hin : sid ∈ s.rooms t
      · rw [if_pos hin]; exact h2 t
      · rw [if_neg hin]
        refine (h2 t).append (List.nodup_singleton sid) ?_
        intro a ha hb
        rw [List.mem_singleton] at hb
        subst hb
        exact hin ha
    · rw [if_neg hq]; exact h2 q
  · intro q
    rw [setCurrentRoom_rooms, joinAdapter_rooms]
    by_cases hq : q = t
    · rw [if_pos hq]
      by_cases hin : sid ∈ s.rooms t
      · rw [if_pos hin]; exact h3 t
      · rw [if_neg hin]
        rw [List.length_append, List.length_singleton]
        omega
    · rw [if_neg hq]; exact h3 q

theorem sid_rooms_after_phase1 (s : ServerState) (sid : Nat) (t : String)
    (h : RegistryInv s) :
    ∀ r, sid ∈ (joinPhase1 s sid t).1.rooms r → r = t := by
  intro r hr
  obtain ⟨h1, _, _⟩ := h
  cases hcr : s.currentRoom sid with
  | none =>
      rw [joinPhase1_none s sid t hcr] at hr
      have := h1 sid r hr
      rw [hcr] at this
      exact absurd this (by simp)
  | some pr =>
      by_cases hpr : pr = t
      · rw [hpr] at hcr
        rw [joinPhase1_same s sid t hcr] at hr
        have := h1 sid r hr
        rw [hcr] at this
        exact (Option.some_inj.mp this).symm
      · rw [joinPhase1_diff s sid t pr hcr hpr] at hr
        rw [leaveAdapter_rooms] at hr
        by_cases hq : r = pr
        · rw [if_pos hq] at hr
          rw [List.mem_filter] at hr
          simp at hr
        · rw [if_neg hq] at hr
          have := h1 sid r hr
          rw [hcr] at this
          exact absurd (Option.some_inj.mp this).symm hq

theorem registryInv_joinPhase1 (s : ServerState) (sid : Nat) (t : String)
    (h : RegistryInv s) : RegistryInv (joinPhase1 s sid t).1 := by
  cases hcr : s.currentRoom sid with
  | none => rw [joinPhase1_none s sid t hcr]; exact h
  | some pr =>
      by_cases hpr : pr = t
      · rw [hpr] at hcr; rw [joinPhase1_same s sid t hcr]; exact h
      · rw [joinPhase1_diff s sid t pr hcr hpr]
        exact registryInv_leaveAdapter s sid pr h

theorem registryInv_joinPhase2 (s1 : ServerState) (sid : Nat) (t : String)
    (h : RegistryInv s1) (hmem : ∀ r, sid ∈ s1.rooms r → r = t) :
    RegistryInv (joinPhase2 s1 sid t).1 := by
  by_cases hfull : 2 ≤ (s1.rooms t).length
  · rw [joinPhase2_full s1 sid t hfull]; exact h
  · rw [joinPhase2_fst_notfull s1 sid t hfull]
    exact registryInv_joinSuccess s1 sid t h (by omega) hmem

theorem registryInv_join (s : ServerState) (sid : Nat) (input : String)
    (h : RegistryInv s) : RegistryInv (serverJoin s sid input).1 := by
  rw [serverJoin_fst]
  exact registryInv_joinPhase2 _ sid _
    (registryInv_joinPhase1 s sid _ h)
    (sid_rooms_after_phase1 s sid _ h)

theorem registryInv_disconnect (s : ServerState) (sid : Nat)
    (h : RegistryInv s) : RegistryInv (serverDisconnect s sid).1 := by
  obtain ⟨h1, h2, h3⟩ := h
  refine ⟨?_, ?_, ?_⟩
  · intro x q hx
    rw [serverDisconnect_fst_rooms] at hx
    rw [serverDisconnect_fst_cur]
    rw [List.mem_filter] at hx
    obtain ⟨hx1, hx2⟩ := hx
    have hxs : x ≠ sid := by simpa using hx2
    rw [if_neg hxs]
    exact h1 x q hx1
  · intro q
    rw [serverDisconnect_fst_rooms]
    exact (h2 q).filter _
  · intro q
    rw [serverDisconnect_fst_rooms]
    exact le_trans (List.length_filter_le _ _) (h3 q)

theorem registryInv_applyOp (s : ServerState) (op : ServerOp)
    (h : RegistryInv s) : RegistryInv (applyOp s op) := by
  cases op with
  | join sid r => exact registryInv_join s sid r h
  | disconnect sid => exact registryInv_disconnect s sid h

theorem registryInv_runFrom (ops : List ServerOp) :
    ∀ s, RegistryInv s → RegistryInv (runFrom s ops) := by
  induction ops with
  | nil => intro s h; exact h
  | cons op rest ih =>
      intro s h
      exact ih (applyOp s op) (registryInv_applyOp s op h)

theorem registryInv_runOps (ops : List ServerOp) : RegistryInv (runOps ops) :=
  registryInv_runFrom ops initialServer registryInv_initial

/-! ## Client model (`src/frontend/src/Room.tsx`)

The `RTCPeerConnection` signaling states the handlers inspect. -/

inductive SignalingState where
  | stable
  | haveLocalOffer
  | haveRemoteOffer
  | closed
deriving DecidableEq, Repr

/-- Opaque session description (offer or answer payload). -/
structure Desc where
  sdp : String
deriving DecidableEq, Repr

/-- `RTCIceCandidateInit`: the handlers deduplicate on the `candidate` string;
the rest of the payload is opaque. -/
structure IceCand where
  candidate : String
  payload : String
deriving DecidableEq, Repr

/-- Modelled from the spec: the relevant observable state of the external
`RTCPeerConnection` transport engine (spec section 6 excludes it from the
core), with the standard WebRTC signaling-state transitions. -/
structure PeerConn where
  signalingState : SignalingState
  remoteDescription : Option Desc
  localDescription : Option Desc
deriving DecidableEq, Repr

/-- Messages the client emits on the socket. -/
inductive ClientOut where
  | offer (d : Desc)
  | answer (d : Desc)
  | candidate (c : IceCand)
deriving DecidableEq, Repr

/-- Client-side state: the peer connection ref (null on teardown), the
`queuedIceCandidates` ref, plus ghost logs of the candidates applied to the
connection and the messages emitted, both in order. -/
structure ClientState where
  pc : Option PeerConn
  queuedIceCandidates : List IceCand
  applied : List IceCand
  sent : List ClientOut
deriving DecidableEq, Repr

/-- A freshly constructed `RTCPeerConnection` starts stable with no
descriptions. -/
def newPeerConn : PeerConn :=
  { signalingState := SignalingState.stable
    remoteDescription := none
    localDescription := none }

/-- Effect 2 setup: a fresh connection and an empty candidate queue. -/
def freshClient : ClientState :=
  { pc := some newPeerConn
    queuedIceCandidates := []
    applied := []
    sent := [] }

/-- `processQueuedCandidates` (`Room.tsx`, lines 197-231): needs a connection
with a remote description; takes a snapshot of the queue, clears it, and adds
each snapshot candidate in order, guarded per candidate by the remote
description being set and the state not being closed. -/
def processQueuedCandidates (s : ClientState) : ClientState :=
  match s.pc with
  | none => s
  | some p =>
      if p.remoteDescription = none then s
      else if s.queuedIceCandidates = [] then s
      else
        { s with
            queuedIceCandidates := []
            applied := s.queuedIceCandidates.foldl
              (fun acc c =>
                if p.remoteDescription ≠ none ∧ p.signalingState ≠ SignalingState.closed
                then acc ++ [c] else acc)
              s.applied }

/-- `handleIceCandidate` (lines 432-463): ignore when the connection is null
or closed; queue (deduplicating on the `candidate` string) while no remote
description is set; otherwise apply immediately. -/
def handleIceCandidate (s : ClientState) (c : IceCand) : ClientState :=
  match s.pc with
  | none => s
  | some p =>
      if p.signalingState = SignalingState.closed then s
      else if p.remoteDescription = none then
        if s.queuedIceCandidates.any (fun q => q.candidate = c.candidate) then s
        else { s with queuedIceCandidates := s.queuedIceCandidates ++ [c] }
      else { s with applied := s.applied ++ [c] }

/-- `createAnswer` (lines 257-289): guard on the signaling state, set the
remote offer, drain the queue, and if the state is then `have-remote-offer`
create the answer `ans` (the external engine's product), set it locally and
emit it. -/
def createAnswer (s : ClientState) (offer : Desc) (ans : Desc) : ClientState :=
  match s.pc with
  | none => s
  | some p =>
      if p.signalingState ≠ SignalingState.stable ∧
         p.signalingState ≠ SignalingState.haveRemoteOffer ∧
         p.signalingState ≠ SignalingState.haveLocalOffer then s
      else
        let p1 : PeerConn :=
          { p with remoteDescription := some offer
                   signalingState := SignalingState.haveRemoteOffer }
        let s1 := processQueuedCandidates { s with pc := some p1 }
        match s1.pc with
        | none => s1
        | some p2 =>
            if p2.signalingState = SignalingState.haveRemoteOffer then
              { s1 with
                  pc := some { p2 with
                                 localDescription := some ans
                                 signalingState := SignalingState.stable }
                  sent := s1.sent ++ [ClientOut.answer ans] }
            else s1

/-- `handleOffer` (lines 465-476): ignore when the connection is null or
closed, or when a remote description is already set; otherwise forward to
`createAnswer`. -/
def handleOffer (s : ClientState) (offer : Desc) (ans : Desc) : ClientState :=
  match s.pc with
  | none => s
  | some p =>
      if p.signalingState = SignalingState.closed then s
      else if p.remoteDescription ≠ none then s
      else createAnswer s offer ans

/-- `handleAnswer` (lines 478-494): ignore unless the state is
`have-local-offer`; otherwise set the remote answer and drain the queue. -/
def handleAnswer (s : ClientState) (ans : Desc) : ClientState :=
  match s.pc with
  | none => s
  | some p =>
      if p.signalingState ≠ SignalingState.haveLocalOffer then s
      else
        let p1 : PeerConn :=
          { p with remoteDescription := some ans
                   signalingState := SignalingState.stable }
        processQueuedCandidates { s with pc := some p1 }

/-- Guard of `createOffer` (lines 234-241) checked before the asynchronous
offer creation suspends. -/
def createOfferGuard (s : ClientState) : Bool :=
  match s.pc with
  | none => false
  | some p => p.signalingState = SignalingState.stable

/-- Continuation of `createOffer` (lines 245-250) after `await createOffer()`
returns descriptor `d`: re-check that the state is still stable before
setting the local description and emitting the offer; abort otherwise. -/
def createOfferResume (s : ClientState) (d : Desc) : ClientState :=
  match s.pc with
  | none => s
  | some p =>
      if p.signalingState ≠ SignalingState.stable then s
      else
        { s with
            pc := some { p with
                           localDescription := some d
                           signalingState := SignalingState.haveLocalOffer }
            sent := s.sent ++ [ClientOut.offer d] }

/-- `handleInitiateOffer` (lines 496-505) composed with an uninterrupted
`createOffer` run. -/
def handleInitiateOffer (s : ClientState) (d : Desc) : ClientState :=
  match s.pc with
  | none => s
  | some p =>
      if p.signalingState ≠ SignalingState.stable ∨ p.remoteDescription ≠ none then s
      else if createOfferGuard s then createOfferResume s d else s

/-- `handlePeerDisconnected` (lines 511-528): close the connection if not
already closed and clear the candidate queue (the UI effects are outside the
model). -/
def handlePeerDisconnected (s : ClientState) : ClientState :=
  match s.pc with
  | none => s
  | some p =>
      let p1 :=
        if p.signalingState ≠ SignalingState.closed
        then { p with signalingState := SignalingState.closed } else p
      { s with pc := some p1, queuedIceCandidates := [] }

/-- Fold a burst of received `ice-candidate` messages. -/
def recvCandidates (s : ClientState) (cs : List IceCand) : ClientState :=
  cs.foldl handleIceCandidate s

/-! ### Client lemmas -/

theorem foldl_concat (l : List IceCand) :
    ∀ a : List IceCand, l.foldl (fun acc c => acc ++ [c]) a = a ++ l := by
  induction l with
  | nil => intro a; simp
  | cons c rest ih =>
      intro a
      simp only [List.foldl_cons]
      rw [ih (a ++ [c])]
      simp

theorem foldl_guard_append (p : PeerConn) (l : List IceCand)
    (h : p.remoteDescription ≠ none ∧ p.signalingState ≠ SignalingState.closed) :
    ∀ a : List IceCand,
      l.foldl
        (fun acc c =>
          if p.remoteDescription ≠ none ∧ p.signalingState ≠ SignalingState.closed
          then acc ++ [c] else acc) a = a ++ l := by
  intro a
  simp only [if_pos h]
  exact foldl_concat l a

theorem processQueued_run (s : ClientState) (p : PeerConn)
    (hpc : s.pc = some p) (hrd : p.remoteDescription ≠ none)
    (hcl : p.signalingState ≠ SignalingState.closed) :
    processQueuedCandidates s =
      { s with queuedIceCandidates := []
               applied := s.applied ++ s.queuedIceCandidates } := by
  cases s with
  | mk pc q app snt =>
      simp only at hpc
      subst hpc
      simp only [processQueuedCandidates, if_neg hrd]
      by_cases hq : q = []
      · subst hq; simp
      · rw [if_neg hq]
        rw [foldl_guard_append p q ⟨hrd, hcl⟩ app]

theorem processQueued_empty (s : ClientState)
    (hq : s.queuedIceCandidates = []) : processQueuedCandidates s = s := by
  cases s with
  | mk pc q app snt =>
      simp only at hq
      subst hq
      cases pc with
      | none => rfl
      | some p =>
          simp only [processQueuedCandidates]
          by_cases hrd : p.remoteDescription = none
          · rw [if_pos hrd]
          · rw [if_neg hrd]; simp

theorem recv_before_remote (cs : List IceCand) :
    ∀ s : ClientState, ∀ p : PeerConn, s.pc = some p →
      p.signalingState ≠ SignalingState.closed →
      p.remoteDescription = none →
      (∀ c ∈ cs, ∀ q ∈ s.queuedIceCandidates, q.candidate ≠ c.candidate) →
      (cs.map IceCand.candidate).Nodup →
      recvCandidates s cs = { s with queuedIceCandidates := s.queuedIceCandidates ++ cs } := by
  induction cs with
  | nil =>
      intro s p hpc hcl hrd hdisj hnd
      cases s with
      | mk pc q app snt => simp [recvCandidates]
  | cons c rest ih =>
      intro s p hpc hcl hrd hdisj hnd
      cases s with
      | mk pc q app snt =>
          simp only at hpc
          subst hpc
          have hstep : handleIceCandidate ⟨some p, q, app, snt⟩ c =
              ⟨some p, q ++ [c], app, snt⟩ := by
            simp only [handleIceCandidate, if_neg hcl, if_pos hrd]
            have hany : q.any (fun x => x.candidate = c.candidate) = false := by
              rw [List.any_eq_false]
              intro x hx
              have := hdisj c (List.mem_cons_self c rest) x hx
              simpa using this
            rw [hany]
            simp
          have hrec : recvCandidates ⟨some p, q, app, snt⟩ (c :: rest) =
              recvCandidates ⟨some p, q ++ [c], app, snt⟩ rest := by
            simp only [recvCandidates, List.foldl_cons, hstep]
          rw [hrec]
          have hnd' : (rest.map IceCand.candidate).Nodup := by
            simpa using hnd.of_cons
          have hhead : c.candidate ∉ rest.map IceCand.candidate := by
            have := hnd
            rw [List.map_cons, List.nodup_cons] at this
            exact this.1
          have hdisj' : ∀ c' ∈ rest, ∀ x ∈ q ++ [c], x.candidate ≠ c'.candidate := by
            intro c' hc' x hx
            rcases List.mem_append.mp hx with hx' | hx'
            · exact hdisj c' (List.mem_cons_of_mem c hc') x hx'
            · rw [List.mem_singleton] at hx'
              subst hx'
              intro heq
              exact hhead (heq ▸ List.mem_map_of_mem IceCand.candidate hc')
          rw [ih ⟨some p, q ++ [c], app, snt⟩ p rfl hcl hrd hdisj' hnd']
          simp

theorem createAnswer_run (s : ClientState) (p : PeerConn) (offer ans : Desc)
    (hpc : s.pc = some p) (hcl : p.signalingState ≠ SignalingState.closed) :
    createAnswer s offer ans =
      { pc := some { signalingState := SignalingState.stable
                     remoteDescription := some offer
                     localDescription := some ans }
        queuedIceCandidates := []
        applied := s.applied ++ s.queuedIceCandidates
        sent := s.sent ++ [ClientOut.answer ans] } := by
  cases s with
  | mk pc q app snt =>
      simp only at hpc
      subst hpc
      cases p with
      | mk st rd ld =>
          simp only at hcl
          have hguard : ¬(st ≠ SignalingState.stable ∧
              st ≠ SignalingState.haveRemoteOffer ∧
              st ≠ SignalingState.haveLocalOffer) := by
            cases st <;> simp_all
          simp only [createAnswer, if_neg hguard]
          rw [processQueued_run _
            { signalingState := SignalingState.haveRemoteOffer
              remoteDescription := some offer
              localDescription := ld } rfl (by simp) (by simp)]
          simp

/-! ## Client claims -/

/-- Sample candidate used by witnesses. -/
def candA : IceCand := { candidate := "candA", payload := "pa" }

/-- Second sample candidate used by witnesses. -/
def candB : IceCand := { candidate := "candB", payload := "pb" }

/-- A client that has sent an offer and waits for the answer. -/
def offerHeld : ClientState :=
  { pc := some { signalingState := SignalingState.haveLocalOffer
                 remoteDescription := none
                 localDescription := some { sdp := "local" } }
    queuedIceCandidates := []
    applied := []
    sent := [ClientOut.offer { sdp := "local" }] }


/-- Claim C4: candidates received before a remote description is set are
enqueued (deduplicated by candidate content) and never applied; once a remote
description is accepted, the queue is drained exactly once and the queued
candidates are applied in their original arrival order. -/
theorem candidate_queue_fifo (s : ClientState) (p : PeerConn)
    (cs : List IceCand) (ans : Desc)
    (hpc : s.pc = some p)
    (hst : p.signalingState = SignalingState.haveLocalOffer)
    (hrd : p.remoteDescription = none)
    (hq : s.queuedIceCandidates = [])
    (hnd : (cs.map IceCand.candidate).Nodup) :
    (recvCandidates s cs).applied = s.applied ∧
    (recvCandidates s cs).pc = s.pc ∧
    (recvCandidates s cs).queuedIceCandidates = cs ∧
    (∀ c ∈ cs, handleIceCandidate (recvCandidates s cs) c = recvCandidates s cs) ∧
    (handleAnswer (recvCandidates s cs) ans).applied = s.applied ++ cs ∧
    (handleAnswer (recvCandidates s cs) ans).queuedIceCandidates = [] ∧
    processQueuedCandidates (handleAnswer (recvCandidates s cs) ans) =
      handleAnswer (recvCandidates s cs) ans := by
  have hcl : p.signalingState ≠ SignalingState.closed := by rw [hst]; simp
  obtain ⟨pc, q, app, snt⟩ := s
  simp only at hpc hq
  subst hpc
  subst hq
  have hrec : recvCandidates ⟨some p, [], app, snt⟩ cs = ⟨some p, cs, app, snt⟩ := by
    have h := recv_before_remote cs ⟨some p, [], app, snt⟩ p rfl hcl hrd
      (by intro c hc x hx; simp at hx) hnd
    simpa using h
  rw [hrec]
  have hans : handleAnswer (⟨some p, cs, app, snt⟩ : ClientState) ans =
      ⟨some { signalingState := SignalingState.stable
              remoteDescription := some ans
              localDescription := p.localDescription }, [], app ++ cs, snt⟩ := by
    simp only [handleAnswer, hst, ne_eq, not_true_eq_false, if_false]
    rw [processQueued_run _
      { signalingState := SignalingState.stable
        remoteDescription := some ans
        localDescription := p.localDescription } rfl (by simp) (by simp)]
  refine ⟨rfl, rfl, rfl, ?_, ?_, ?_, ?_⟩
  · intro c hc
    simp only [handleIceCandidate, if_neg hcl, if_pos hrd]
    have hany : cs.any (fun x => x.candidate = c.candidate) = true :=
      List.any_eq_true.mpr ⟨c, hc, by simp⟩
    rw [hany]
    simp
  · rw [hans]
  · rw [hans]
  · rw [hans]
    apply processQueued_empty
    rfl

theorem candidate_queue_fifo_witness :
    (recvCandidates offerHeld [candA, candB]).applied = offerHeld.applied ∧
    (recvCandidates offerHeld [candA, candB]).pc = offerHeld.pc ∧
    (recvCandidates offerHeld [candA, candB]).queuedIceCandidates = [candA, candB] ∧
    (∀ c ∈ [candA, candB],
      handleIceCandidate (recvCandidates offerHeld [candA, candB]) c =
        recvCandidates offerHeld [candA, candB]) ∧
    (handleAnswer (recvCandidates offerHeld [candA, candB]) { sdp := "ans" }).applied =
      offerHeld.applied ++ [candA, candB] ∧
    (handleAnswer (recvCandidates offerHeld [candA, candB]) { sdp := "ans" }).queuedIceCandidates = [] ∧
    processQueuedCandidates
        (handleAnswer (recvCandidates offerHeld [candA, candB]) { sdp := "ans" }) =
      handleAnswer (recvCandidates offerHeld [candA, candB]) { sdp := "ans" } :=
  candidate_queue_fifo offerHeld
    { signalingState := SignalingState.haveLocalOffer
      remoteDescription := none
      localDescription := some { sdp := "local" } }
    [candA, candB] { sdp := "ans" } rfl rfl rfl rfl (by decide)

/-- Claim C5 counterexample: after one complete offer/answer exchange the
state machine sits in `stable` — a non-Closed state — with a remote
description set; a second received offer is dropped entirely (state unchanged,
offer not accepted as remote description, no drain, no answer), refuting the
claim that an offer is accepted in every non-Closed state. -/
theorem offer_nonclosed_dropped_cex :
    handleOffer (handleOffer freshClient { sdp := "o1" } { sdp := "a1" })
        { sdp := "o2" } { sdp := "a2" } =
      handleOffer freshClient { sdp := "o1" } { sdp := "a1" } ∧
    (handleOffer freshClient { sdp := "o1" } { sdp := "a1" }).pc =
      some { signalingState := SignalingState.stable
             remoteDescription := some { sdp := "o1" }
             localDescription := some { sdp := "a1" } } := by
  constructor
  · rfl
  · rfl

/-- Claim C5, amended: a received offer is accepted whenever the connection
exists, the state is non-Closed, and no remote description has been set yet
(the handler drops offers once a remote description exists); then the offer
becomes the remote description, the queue is drained in order, and an answer
is created, set locally and sent. -/
theorem offer_accepted_when_no_remote (s : ClientState) (p : PeerConn)
    (offer ans : Desc) (hpc : s.pc = some p)
    (hcl : p.signalingState ≠ SignalingState.closed)
    (hrd : p.remoteDescription = none) :
    (handleOffer s offer ans).pc =
      some { signalingState := SignalingState.stable
             remoteDescription := some offer
             localDescription := some ans } ∧
    (handleOffer s offer ans).queuedIceCandidates = [] ∧
    (handleOffer s offer ans).applied = s.applied ++ s.queuedIceCandidates ∧
    (handleOffer s offer ans).sent = s.sent ++ [ClientOut.answer ans] := by
  have hrun := createAnswer_run s p offer ans hpc hcl
  have hoff : handleOffer s offer ans = createAnswer s offer ans := by
    cases hs : s.pc with
    | none => rw [hpc] at hs; cases hs
    | some p2 =>
        have hp2 : p2 = p := by
          rw [hpc] at hs
          exact (Option.some_inj.mp hs).symm
        subst hp2
        cases s with
        | mk pc q app snt =>
            simp only at hs
            subst hs
            simp only [handleOffer, if_neg hcl, hrd]
            simp
  rw [hoff, hrun]
  exact ⟨rfl, rfl, rfl, rfl⟩

theorem offer_accepted_when_no_remote_witness :
    (handleOffer offerHeld { sdp := "og" } { sdp := "ag" }).pc =
      some { signalingState := SignalingState.stable
             remoteDescription := some { sdp := "og" }
             localDescription := some { sdp := "ag" } } ∧
    (handleOffer offerHeld { sdp := "og" } { sdp := "ag" }).queuedIceCandidates = [] ∧
    (handleOffer offerHeld { sdp := "og" } { sdp := "ag" }).applied =
      offerHeld.applied ++ offerHeld.queuedIceCandidates ∧
    (handleOffer offerHeld { sdp := "og" } { sdp := "ag" }).sent =
      offerHeld.sent ++ [ClientOut.answer { sdp := "ag" }] :=
  offer_accepted_when_no_remote offerHeld
    { signalingState := SignalingState.haveLocalOffer
      remoteDescription := none
      localDescription := some { sdp := "local" } }
    { sdp := "og" } { sdp := "ag" } rfl (by decide) rfl

/-- Claim C6: once the negotiation state machine is Closed (connection gone
or signaling state `closed`), every subsequently received offer, answer or
ice-candidate is ignored and the state stays Closed; receiving
`peer_disconnected` produces exactly such a state, discards the queued
candidates and applies nothing. -/
theorem closed_state_frozen (s t : ClientState) (q : PeerConn)
    (hcl : s.pc = none ∨ ∃ p, s.pc = some p ∧ p.signalingState = SignalingState.closed)
    (ht : t.pc = some q)
    (c : IceCand) (offer ans ans2 d d2 : Desc) :
    handleIceCandidate s c = s ∧
    handleOffer s offer ans = s ∧
    handleAnswer s ans2 = s ∧
    handleInitiateOffer s d = s ∧
    createOfferResume s d2 = s ∧
    (handlePeerDisconnected t).queuedIceCandidates = [] ∧
    (∃ q1, (handlePeerDisconnected t).pc = some q1 ∧
       q1.signalingState = SignalingState.closed) ∧
    (handlePeerDisconnected t).applied = t.applied := by
  have hfrozen : ∀ u : ClientState,
      (u.pc = none ∨ ∃ p, u.pc = some p ∧ p.signalingState = SignalingState.closed) →
      handleIceCandidate u c = u ∧ handleOffer u offer ans = u ∧
      handleAnswer u ans2 = u ∧ handleInitiateOffer u d = u ∧
      createOfferResume u d2 = u := by
    intro u hu
    obtain ⟨pc, qq, app, snt⟩ := u
    rcases hu with hnone | ⟨p, hp, hps⟩
    · simp only at hnone
      subst hnone
      exact ⟨rfl, rfl, rfl, rfl, rfl⟩
    · simp only at hp
      subst hp
      refine ⟨?_, ?_, ?_, ?_, ?_⟩
      · simp [handleIceCandidate, hps]
      · simp [handleOffer, hps]
      · simp [handleAnswer, hps]
      · simp [handleInitiateOffer, hps]
      · simp [createOfferResume, hps]
  have hdisc : (handlePeerDisconnected t).queuedIceCandidates = [] ∧
      (∃ q1, (handlePeerDisconnected t).pc = some q1 ∧
         q1.signalingState = SignalingState.closed) ∧
      (handlePeerDisconnected t).applied = t.applied := by
    obtain ⟨pc, qq, app, snt⟩ := t
    simp only at ht
    subst ht
    by_cases hqs : q.signalingState = SignalingState.closed
    · refine ⟨rfl, ⟨q, ?_, hqs⟩, rfl⟩
      simp [handlePeerDisconnected, hqs]
    · refine ⟨rfl, ⟨{ q with signalingState := SignalingState.closed }, ?_, rfl⟩, rfl⟩
      simp [handlePeerDisconnected, hqs]
  obtain ⟨h1, h2, h3, h4, h5⟩ := hfrozen s hcl
  exact ⟨h1, h2, h3, h4, h5, hdisc⟩

theorem closed_state_frozen_witness :
    handleIceCandidate (handlePeerDisconnected offerHeld) candA =
      handlePeerDisconnected offerHeld ∧
    handleOffer (handlePeerDisconnected offerHeld) { sdp := "o" } { sdp := "a" } =
      handlePeerDisconnected offerHeld ∧
    handleAnswer (handlePeerDisconnected offerHeld) { sdp := "an" } =
      handlePeerDisconnected offerHeld ∧
    handleInitiateOffer (handlePeerDisconnected offerHeld) { sdp := "d" } =
      handlePeerDisconnected offerHeld ∧
    createOfferResume (handlePeerDisconnected offerHeld) { sdp := "d2" } =
      handlePeerDisconnected offerHeld ∧
    (handlePeerDisconnected offerHeld).queuedIceCandidates = [] ∧
    (∃ q1, (handlePeerDisconnected offerHeld).pc = some q1 ∧
       q1.signalingState = SignalingState.closed) ∧
    (handlePeerDisconnected offerHeld).applied = offerHeld.applied :=
  closed_state_frozen (handlePeerDisconnected offerHeld) offerHeld
    { signalingState := SignalingState.haveLocalOffer
      remoteDescription := none
      localDescription := some { sdp := "local" } }
    (Or.inr ⟨{ signalingState := SignalingState.closed
               remoteDescription := none
               localDescription := some { sdp := "local" } }, rfl, rfl⟩)
    rfl candA { sdp := "o" } { sdp := "a" } { sdp := "an" } { sdp := "d" } { sdp := "d2" }

/-- Claim C7: a received answer is dropped with no effect whenever the state
is not HaveLocalOffer; in HaveLocalOffer it becomes the remote description,
the state returns to stable, and the candidate queue is drained in order. -/
theorem answer_guard_spec (s : ClientState) (p : PeerConn) (ans : Desc)
    (hpc : s.pc = some p) :
    (p.signalingState ≠ SignalingState.haveLocalOffer → handleAnswer s ans = s) ∧
    (p.signalingState = SignalingState.haveLocalOffer →
      (handleAnswer s ans).pc =
        some { signalingState := SignalingState.stable
               remoteDescription := some ans
               localDescription := p.localDescription } ∧
      (handleAnswer s ans).queuedIceCandidates = [] ∧
      (handleAnswer s ans).applied = s.applied ++ s.queuedIceCandidates ∧
      (handleAnswer s ans).sent = s.sent) := by
  obtain ⟨pc, qq, app, snt⟩ := s
  simp only at hpc
  subst hpc
  constructor
  · intro hne
    simp [handleAnswer, hne]
  · intro hst
    simp only [handleAnswer, hst, ne_eq, not_true_eq_false, if_false]
    rw [processQueued_run _
      { signalingState := SignalingState.stable
        remoteDescription := some ans
        localDescription := p.localDescription } rfl (by simp) (by simp)]
    exact ⟨rfl, rfl, rfl, rfl⟩

theorem answer_guard_spec_witness :
    ((freshClient.pc.getD newPeerConn).signalingState ≠ SignalingState.haveLocalOffer →
      handleAnswer freshClient { sdp := "w" } = freshClient) ∧
    ((freshClient.pc.getD newPeerConn).signalingState = SignalingState.haveLocalOffer →
      (handleAnswer freshClient { sdp := "w" }).pc =
        some { signalingState := SignalingState.stable
               remoteDescription := some { sdp := "w" }
               localDescription := (freshClient.pc.getD newPeerConn).localDescription } ∧
      (handleAnswer freshClient { sdp := "w" }).queuedIceCandidates = [] ∧
      (handleAnswer freshClient { sdp := "w" }).applied =
        freshClient.applied ++ freshClient.queuedIceCandidates ∧
      (handleAnswer freshClient { sdp := "w" }).sent = freshClient.sent) :=
  answer_guard_spec freshClient (freshClient.pc.getD newPeerConn) { sdp := "w" } rfl

/-- Claim C9: the offer-creation continuation re-checks the stable-state guard
after the asynchronous suspension: whatever state the machine is in at
resumption, if it is no longer stable (including after a `peer_disconnected`
arrived mid-flight) the operation aborts and changes nothing, so no local
description is set and no offer is emitted. -/
theorem offer_recheck_after_suspension (s t : ClientState) (d : Desc)
    (h : ∀ p, s.pc = some p → p.signalingState ≠ SignalingState.stable) :
    createOfferResume s d = s ∧
    createOfferResume (handlePeerDisconnected t) d = handlePeerDisconnected t := by
  constructor
  · obtain ⟨pc, qq, app, snt⟩ := s
    cases pc with
    | none => rfl
    | some p =>
        have hp := h p rfl
        simp [createOfferResume, hp]
  · obtain ⟨pc, qq, app, snt⟩ := t
    cases pc with
    | none => rfl
    | some p =>
        simp only [handlePeerDisconnected]
        by_cases hps : p.signalingState = SignalingState.closed
        · simp only [hps]
          simp [createOfferResume, hps]
        · simp only [ne_eq, hps, not_false_eq_true, if_pos]
          simp [createOfferResume]

theorem offer_recheck_after_suspension_witness :
    createOfferResume (handlePeerDisconnected offerHeld) { sdp := "w9" } =
      handlePeerDisconnected offerHeld ∧
    createOfferResume (handlePeerDisconnected freshClient) { sdp := "w9" } =
      handlePeerDisconnected freshClient :=
  offer_recheck_after_suspension (handlePeerDisconnected offerHeld) freshClient
    { sdp := "w9" }
    (fun p hp => by
      have : p = { signalingState := SignalingState.closed
                   remoteDescription := none
                   localDescription := some { sdp := "local" } } := by
        have hp' : (handlePeerDisconnected offerHeld).pc =
            some { signalingState := SignalingState.closed
                   remoteDescription := none
                   localDescription := some { sdp := "local" } } := rfl
        rw [hp'] at hp
        exact (Option.some_inj.mp hp).symm
      rw [this]
      decide)

/-! ## Server claims -/

theorem phase1_rooms_target (s : ServerState) (sid : Nat) (t : String) :
    (joinPhase1 s sid t).1.rooms t = s.rooms t := by
  cases hcr : s.currentRoom sid with
  | none => rw [joinPhase1_none s sid t hcr]
  | some pr =>
      by_cases hpr : pr = t
      · rw [hpr] at hcr
        rw [joinPhase1_same s sid t hcr]
      · rw [joinPhase1_diff s sid t pr hcr hpr, leaveAdapter_rooms]
        rw [if_neg (fun hh => hpr hh.symm)]

theorem phase1_cur (s : ServerState) (sid : Nat) (t : String) :
    (joinPhase1 s sid t).1.currentRoom = s.currentRoom := by
  cases hcr : s.currentRoom sid with
  | none => rw [joinPhase1_none s sid t hcr]
  | some pr =>
      by_cases hpr : pr = t
      · rw [hpr] at hcr
        rw [joinPhase1_same s sid t hcr]
      · rw [joinPhase1_diff s sid t pr hcr hpr, leaveAdapter_cur]

theorem filter_fst_map_not_mem (l : List Nat) (m : ServerMsg) (y : Nat)
    (h : y ∉ l) :
    ((l.map (fun z => (z, m))).filter (fun e => e.1 = y)) = [] := by
  induction l with
  | nil => rfl
  | cons a rest ih =>
      have hay : a ≠ y := fun he => h (he ▸ List.mem_cons_self a rest)
      have hrest : y ∉ rest := fun he => h (List.mem_cons_of_mem a he)
      simp only [List.map_cons, List.filter_cons]
      rw [if_neg (by simpa using hay)]
      exact ih hrest

theorem phase1_out_no_target (s : ServerState) (sid : Nat) (t : String)
    (hInv : RegistryInv s) :
    ∀ y, (y ∈ s.rooms t ∨ y = sid) →
      ((joinPhase1 s sid t).2.filter (fun e => e.1 = y)) = [] := by
  intro y hy
  cases hcr : s.currentRoom sid with
  | none => rw [joinPhase1_none s sid t hcr]; rfl
  | some pr =>
      by_cases hpr : pr = t
      · rw [hpr] at hcr
        rw [joinPhase1_same s sid t hcr]
        rfl
      · rw [joinPhase1_diff s sid t pr hcr hpr]
        simp only [emitToRoom]
        apply filter_fst_map_not_mem
        intro hmem
        rw [List.mem_filter] at hmem
        obtain ⟨hmem1, hmem2⟩ := hmem
        have hysid : y ≠ sid := by simpa using hmem2
        rcases hy with hyt | hysid'
        · have h1 := hInv.1 y pr hmem1
          have h2 := hInv.1 y t hyt
          rw [h1] at h2
          exact hpr (Option.some_inj.mp h2)
        · exact hysid hysid'

/-- Claim C1: across every sequence of join and disconnect operations every
room holds at most two participants; a join aimed at a room that already has
two members leaves that room's membership, the joiner's absence from it, and
the joiner's recorded association all unchanged. -/
theorem room_capacity_le_two (ops : List ServerOp) (r : String)
    (s : ServerState) (hs : s = runOps ops) (sid : Nat) (input : String) :
    ((runOps ops).rooms r).length ≤ 2 ∧
    (2 ≤ (s.rooms (targetOf input)).length →
      ((serverJoin s sid input).1.rooms (targetOf input) = s.rooms (targetOf input) ∧
       (sid ∉ s.rooms (targetOf input) →
         sid ∉ (serverJoin s sid input).1.rooms (targetOf input)) ∧
       (serverJoin s sid input).1.currentRoom sid = s.currentRoom sid)) := by
  constructor
  · exact (registryInv_runOps ops).2.2 r
  · intro hfull
    have h1t := phase1_rooms_target s sid (targetOf input)
    have h1c := phase1_cur s sid (targetOf input)
    have hfull1 : 2 ≤ ((joinPhase1 s sid (targetOf input)).1.rooms (targetOf input)).length := by
      rw [h1t]; exact hfull
    have hfin : (serverJoin s sid input).1 = (joinPhase1 s sid (targetOf input)).1 := by
      rw [serverJoin_fst, joinPhase2_full _ sid (targetOf input) hfull1]
    rw [hfin, h1t, h1c]
    exact ⟨rfl, fun h => h, rfl⟩

theorem room_capacity_le_two_witness :
    ((runOps [ServerOp.join 0 "r", ServerOp.join 1 "r"]).rooms "r").length ≤ 2 ∧
    (serverJoin (runOps [ServerOp.join 0 "r", ServerOp.join 1 "r"]) 2 "r").1.rooms "r" =
      (runOps [ServerOp.join 0 "r", ServerOp.join 1 "r"]).rooms "r" ∧
    2 ∉ (serverJoin (runOps [ServerOp.join 0 "r", ServerOp.join 1 "r"]) 2 "r").1.rooms "r" := by
  have h := room_capacity_le_two [ServerOp.join 0 "r", ServerOp.join 1 "r"] "r"
    (runOps [ServerOp.join 0 "r", ServerOp.join 1 "r"]) rfl 2 "r"
  have h2 := h.2 (by decide)
  exact ⟨h.1, h2.1, h2.2.1 (by decide)⟩

/-- Claim C2: on the join that fills a room (size 1 to 2), the joiner
receives exactly `initiate_offer`, the pre-existing occupant receives exactly
`peer_ready`, never both to the same participant and never neither. -/
theorem join_fill_signals (ops : List ServerOp) (s : ServerState)
    (hs : s = runOps ops) (sid x : Nat) (input t : String)
    (ht : t = targetOf input) (hroom : s.rooms t = [x]) (hx : x ≠ sid) :
    (serverJoin s sid input).1.rooms t = [x, sid] ∧
    ((serverJoin s sid input).2.filter (fun e => e.1 = sid)) =
      [(sid, ServerMsg.initiate_offer)] ∧
    ((serverJoin s sid input).2.filter (fun e => e.1 = x)) =
      [(x, ServerMsg.peer_ready)] := by
  have hInv : RegistryInv s := hs ▸ registryInv_runOps ops
  subst ht
  have h1t := phase1_rooms_target s sid (targetOf input)
  rw [hroom] at h1t
  have hnot : ¬ 2 ≤ (((joinPhase1 s sid (targetOf input)).1.rooms (targetOf input)).length) := by
    rw [h1t]; simp
  have hsidx : sid ∉ ((joinPhase1 s sid (targetOf input)).1.rooms (targetOf input)) := by
    rw [h1t]
    simp [List.mem_singleton]
    exact fun hh => hx hh.symm
  have hrooms2 :
      (setCurrentRoom (joinAdapter (joinPhase1 s sid (targetOf input)).1 sid (targetOf input))
        sid (targetOf input)).rooms (targetOf input) = [x, sid] := by
    rw [setCurrentRoom_rooms, joinAdapter_rooms, if_pos rfl, if_neg hsidx, h1t]
    rfl
  have hp2 : joinPhase2 (joinPhase1 s sid (targetOf input)).1 sid (targetOf input) =
      (setCurrentRoom (joinAdapter (joinPhase1 s sid (targetOf input)).1 sid (targetOf input))
         sid (targetOf input),
       (sid, ServerMsg.initiate_offer) ::
         emitToRoom
           (setCurrentRoom (joinAdapter (joinPhase1 s sid (targetOf input)).1 sid (targetOf input))
             sid (targetOf input))
           (targetOf input) sid ServerMsg.peer_ready) := by
    rw [joinPhase2]
    rw [if_neg hnot]
    simp only [hrooms2]
    simp
  have hemit :
      emitToRoom
          (setCurrentRoom (joinAdapter (joinPhase1 s sid (targetOf input)).1 sid (targetOf input))
            sid (targetOf input))
          (targetOf input) sid ServerMsg.peer_ready = [(x, ServerMsg.peer_ready)] := by
    rw [emitToRoom, hrooms2]
    have : ([x, sid].filter (fun z => z ≠ sid)) = [x] := by
      simp [List.filter_cons, hx]
    rw [this]
    rfl
  refine ⟨?_, ?_, ?_⟩
  · rw [serverJoin_fst, hp2]
    exact hrooms2
  · rw [serverJoin_snd, hp2]
    rw [List.filter_append]
    rw [phase1_out_no_target s sid (targetOf input) hInv sid (Or.inr rfl)]
    rw [hemit]
    simp [hx]
  · rw [serverJoin_snd, hp2]
    rw [List.filter_append]
    rw [phase1_out_no_target s sid (targetOf input) hInv x
      (Or.inl (by rw [hroom]; exact List.mem_singleton_self x))]
    rw [hemit]
    have hsx : sid ≠ x := fun hh => hx hh.symm
    simp [hsx]

theorem join_fill_signals_witness :
    (serverJoin (runOps [ServerOp.join 0 "r1"]) 1 "r1").1.rooms "r1" = [0, 1] ∧
    ((serverJoin (runOps [ServerOp.join 0 "r1"]) 1 "r1").2.filter (fun e => e.1 = 1)) =
      [(1, ServerMsg.initiate_offer)] ∧
    ((serverJoin (runOps [ServerOp.join 0 "r1"]) 1 "r1").2.filter (fun e => e.1 = 0)) =
      [(0, ServerMsg.peer_ready)] :=
  join_fill_signals [ServerOp.join 0 "r1"] (runOps [ServerOp.join 0 "r1"]) rfl
    1 0 "r1" "r1" rfl (by decide) (by decide)

/-- Claim C3 counterexample: socket 1 sits in room "a" with socket 0, rooms
"b" is full with sockets 2 and 3; socket 1 then asks to join "b".  The join
is rejected, yet socket 0 receives `peer_disconnected` and socket 1 has
already been removed from room "a" — the rejection is not free of side
effects and a message is sent. -/
theorem join_full_side_effects_cex :
    2 ≤ ((runOps [ServerOp.join 0 "a", ServerOp.join 1 "a", ServerOp.join 2 "b",
          ServerOp.join 3 "b"]).rooms "b").length ∧
    (runOps [ServerOp.join 0 "a", ServerOp.join 1 "a", ServerOp.join 2 "b",
        ServerOp.join 3 "b"]).rooms "a" = [0, 1] ∧
    (serverJoin (runOps [ServerOp.join 0 "a", ServerOp.join 1 "a", ServerOp.join 2 "b",
        ServerOp.join 3 "b"]) 1 "b").2 = [(0, ServerMsg.peer_disconnected)] ∧
    (serverJoin (runOps [ServerOp.join 0 "a", ServerOp.join 1 "a", ServerOp.join 2 "b",
        ServerOp.join 3 "b"]) 1 "b").1.rooms "a" = [0] := by
  refine ⟨?_, ?_, ?_, ?_⟩ <;> decide

/-- Claim C3, amended: a join to a full room is rejected without adding the
joiner, without changing the target room, and without any message to the
joiner or to the target room's occupants; however, when the joiner was
previously associated with a different room, that room has already lost the
joiner and its occupants have already received `peer_disconnected` before the
rejection, and the joiner's stale association still names the old room. -/
theorem join_full_reject_spec (ops : List ServerOp) (s : ServerState)
    (hs : s = runOps ops) (sid : Nat) (input t : String)
    (ht : t = targetOf input) (hfull : 2 ≤ (s.rooms t).length) :
    (serverJoin s sid input).1.rooms t = s.rooms t ∧
    (serverJoin s sid input).1.currentRoom sid = s.currentRoom sid ∧
    ((serverJoin s sid input).2.filter (fun e => e.1 = sid)) = [] ∧
    (∀ y ∈ s.rooms t, ((serverJoin s sid input).2.filter (fun e => e.1 = y)) = []) ∧
    (∀ pr, s.currentRoom sid = some pr → pr ≠ t →
       (serverJoin s sid input).1.rooms pr = (s.rooms pr).filter (fun z => z ≠ sid) ∧
       (serverJoin s sid input).2 =
         ((s.rooms pr).filter (fun z => z ≠ sid)).map
           (fun z => (z, ServerMsg.peer_disconnected))) ∧
    ((s.currentRoom sid = none ∨ s.currentRoom sid = some t) →
       (serverJoin s sid input).2 = []) := by
  have hInv : RegistryInv s := hs ▸ registryInv_runOps ops
  subst ht
  have h1t := phase1_rooms_target s sid (targetOf input)
  have h1c := phase1_cur s sid (targetOf input)
  have hfull1 : 2 ≤ ((joinPhase1 s sid (targetOf input)).1.rooms (targetOf input)).length := by
    rw [h1t]; exact hfull
  have hp2 := joinPhase2_full (joinPhase1 s sid (targetOf input)).1 sid (targetOf input) hfull1
  have hfst : (serverJoin s sid (input)).1 = (joinPhase1 s sid (targetOf input)).1 := by
    rw [serverJoin_fst, hp2]
  have hsnd : (serverJoin s sid (input)).2 = (joinPhase1 s sid (targetOf input)).2 := by
    rw [serverJoin_snd, hp2]
    simp
  refine ⟨?_, ?_, ?_, ?_, ?_, ?_⟩
  · rw [hfst, h1t]
  · rw [hfst, h1c]
  · rw [hsnd]
    exact phase1_out_no_target s sid (targetOf input) hInv sid (Or.inr rfl)
  · intro y hy
    rw [hsnd]
    exact phase1_out_no_target s sid (targetOf input) hInv y (Or.inl hy)
  · intro pr hpr hprt
    rw [hfst, hsnd, joinPhase1_diff s sid (targetOf input) pr hpr hprt]
    constructor
    · rw [leaveAdapter_rooms, if_pos rfl]
    · rfl
  · intro hcase
    rw [hsnd]
    rcases hcase with hnone | hsame
    · rw [joinPhase1_none s sid (targetOf input) hnone]
    · rw [joinPhase1_same s sid (targetOf input) hsame]

theorem join_full_reject_spec_witness :
    (serverJoin (runOps [ServerOp.join 0 "a", ServerOp.join 1 "a", ServerOp.join 2 "b",
        ServerOp.join 3 "b"]) 1 "b").1.rooms "b" =
      (runOps [ServerOp.join 0 "a", ServerOp.join 1 "a", ServerOp.join 2 "b",
        ServerOp.join 3 "b"]).rooms "b" ∧
    ((serverJoin (runOps [ServerOp.join 0 "a", ServerOp.join 1 "a", ServerOp.join 2 "b",
        ServerOp.join 3 "b"]) 1 "b").2.filter (fun e => e.1 = 1)) = [] ∧
    (serverJoin (runOps [ServerOp.join 0 "a", ServerOp.join 1 "a", ServerOp.join 2 "b",
        ServerOp.join 3 "b"]) 1 "b").1.rooms "a" =
      ((runOps [ServerOp.join 0 "a", ServerOp.join 1 "a", ServerOp.join 2 "b",
        ServerOp.join 3 "b"]).rooms "a").filter (fun z => z ≠ 1) := by
  have h := join_full_reject_spec
    [ServerOp.join 0 "a", ServerOp.join 1 "a", ServerOp.join 2 "b", ServerOp.join 3 "b"]
    (runOps [ServerOp.join 0 "a", ServerOp.join 1 "a", ServerOp.join 2 "b", ServerOp.join 3 "b"])
    rfl 1 "b" "b" rfl (by decide)
  exact ⟨h.1, h.2.2.1, (h.2.2.2.2.1 "a" (by decide) (by decide)).1⟩

/-- Claim C8 counterexample: socket 1's `currentRoom` goes stale after a
rejected join (it still names room "a" although the socket already left it);
room "a" then fills with sockets 0 and 4, and a forwarded offer from socket 1
is delivered to two recipients, not at most one. -/
theorem forward_two_recipients_cex :
    (runOps [ServerOp.join 0 "a", ServerOp.join 1 "a", ServerOp.join 2 "b",
        ServerOp.join 3 "b", ServerOp.join 1 "b", ServerOp.join 4 "a"]).currentRoom 1 =
      some "a" ∧
    forwardEvent (runOps [ServerOp.join 0 "a", ServerOp.join 1 "a", ServerOp.join 2 "b",
        ServerOp.join 3 "b", ServerOp.join 1 "b", ServerOp.join 4 "a"]) 1
        (ServerMsg.offer "x") =
      [(0, ServerMsg.offer "x"), (4, ServerMsg.offer "x")] := by
  constructor <;> decide

/-- Claim C8, amended: a forwarded `offer`/`answer`/`ice-candidate` is
delivered unchanged to every member of the room named by the sender's
`currentRoom` field other than the sender — at most one recipient whenever
the sender is itself still a member of that room (the association can be
stale after a rejected join, allowing up to two recipients) — and is dropped
when the sender has no current room. -/
theorem forward_delivery_spec (ops : List ServerOp) (s : ServerState)
    (hs : s = runOps ops) (sid : Nat) (m : ServerMsg) :
    (s.currentRoom sid = none → forwardEvent s sid m = []) ∧
    (∀ r, s.currentRoom sid = some r →
       forwardEvent s sid m =
         ((s.rooms r).filter (fun z => z ≠ sid)).map (fun z => (z, m)) ∧
       (forwardEvent s sid m).length ≤ 2 ∧
       (sid ∈ s.rooms r → (forwardEvent s sid m).length ≤ 1) ∧
       (∀ e ∈ forwardEvent s sid m, e.2 = m ∧ e.1 ≠ sid)) := by
  have hInv : RegistryInv s := hs ▸ registryInv_runOps ops
  constructor
  · intro hnone
    simp [forwardEvent, hnone]
  · intro r hr
    have heq : forwardEvent s sid m =
        ((s.rooms r).filter (fun z => z ≠ sid)).map (fun z => (z, m)) := by
      simp [forwardEvent, hr, emitToRoom]
    refine ⟨heq, ?_, ?_, ?_⟩
    · rw [heq, List.length_map]
      exact le_trans (List.length_filter_le _ _) (hInv.2.2 r)
    · intro hmem
      obtain ⟨l1, l2, hsplit⟩ := List.append_of_mem hmem
      have hlen := hInv.2.2 r
      rw [hsplit] at hlen
      rw [heq, hsplit, List.length_map, List.filter_append, List.length_append]
      have hl1 := List.length_filter_le (fun z => decide (z ≠ sid)) l1
      have hl2 := List.length_filter_le (fun z => decide (z ≠ sid)) l2
      have hcons : (sid :: l2).filter (fun z => decide (z ≠ sid)) =
          l2.filter (fun z => decide (z ≠ sid)) := by
        simp [List.filter_cons]
      rw [hcons]
      simp only [List.length_append, List.length_cons] at hlen
      omega
    · intro e he
      rw [heq, List.mem_map] at he
      obtain ⟨z, hz, rfl⟩ := he
      rw [List.mem_filter] at hz
      exact ⟨rfl, by simpa using hz.2⟩

theorem forward_delivery_spec_witness :
    forwardEvent (runOps [ServerOp.join 0 "a", ServerOp.join 1 "a"]) 1 (ServerMsg.offer "pl") =
      (((runOps [ServerOp.join 0 "a", ServerOp.join 1 "a"]).rooms "a").filter
        (fun z => z ≠ 1)).map (fun z => (z, ServerMsg.offer "pl")) ∧
    (forwardEvent (runOps [ServerOp.join 0 "a", ServerOp.join 1 "a"]) 1
      (ServerMsg.offer "pl")).length ≤ 1 ∧
    forwardEvent (runOps [ServerOp.join 0 "a", ServerOp.join 1 "a"]) 0 (ServerMsg.answer "pl2") =
      [(1, ServerMsg.answer "pl2")] := by
  have h := forward_delivery_spec [ServerOp.join 0 "a", ServerOp.join 1 "a"]
    (runOps [ServerOp.join 0 "a", ServerOp.join 1 "a"]) rfl 1 (ServerMsg.offer "pl")
  have h2 := h.2 "a" (by decide)
  refine ⟨h2.1, h2.2.2.1 (by decide), by decide⟩

/-- Claim C10: a join with a falsy (empty) room identifier is not rejected:
`String(roomIdInput || "default_fallback_room")` routes it to the fixed room
"default_fallback_room", so two participants that both send a falsy
identifier land in the same room. -/
theorem falsy_join_fallback (sid1 sid2 : Nat) (h : sid1 ≠ sid2) :
    targetOf "" = "default_fallback_room" ∧
    (serverJoin initialServer sid1 "").1.currentRoom sid1 = some "default_fallback_room" ∧
    (serverJoin (serverJoin initialServer sid1 "").1 sid2 "").1.rooms
      "default_fallback_room" = [sid1, sid2] ∧
    (serverJoin (serverJoin initialServer sid1 "").1 sid2 "").1.currentRoom sid2 =
      some "default_fallback_room" := by
  have ht : targetOf "" = "default_fallback_room" := rfl
  have hfst1 : (serverJoin initialServer sid1 "").1 =
      setCurrentRoom (joinAdapter initialServer sid1 "default_fallback_room") sid1
        "default_fallback_room" := by
    rw [serverJoin_fst, ht, joinPhase1_none initialServer sid1 "default_fallback_room" rfl]
    exact joinPhase2_fst_notfull _ _ _ (by simp [initialServer])
  have hcur1 : (serverJoin initialServer sid1 "").1.currentRoom sid1 =
      some "default_fallback_room" := by
    rw [hfst1, setCurrentRoom_cur, if_pos rfl]
  have hcur2 : (serverJoin initialServer sid1 "").1.currentRoom sid2 = none := by
    rw [hfst1, setCurrentRoom_cur, if_neg (fun hh => h hh.symm)]
    rfl
  have hroom1 : (serverJoin initialServer sid1 "").1.rooms "default_fallback_room" = [sid1] := by
    rw [hfst1, setCurrentRoom_rooms, joinAdapter_rooms, if_pos rfl]
    simp [initialServer]
  have hfst2 : (serverJoin (serverJoin initialServer sid1 "").1 sid2 "").1 =
      setCurrentRoom
        (joinAdapter (serverJoin initialServer sid1 "").1 sid2 "default_fallback_room") sid2
        "default_fallback_room" := by
    rw [serverJoin_fst, ht,
      joinPhase1_none (serverJoin initialServer sid1 "").1 sid2 "default_fallback_room" hcur2]
    refine joinPhase2_fst_notfull _ _ _ ?_
    rw [hroom1]
    simp
  refine ⟨ht, hcur1, ?_, ?_⟩
  · rw [hfst2, setCurrentRoom_rooms, joinAdapter_rooms, if_pos rfl, hroom1]
    have hnotmem : sid2 ∉ [sid1] := by
      simp [List.mem_singleton]
      exact fun hh => h hh.symm
    rw [if_neg hnotmem]
    rfl
  · rw [hfst2, setCurrentRoom_cur, if_pos rfl]

theorem falsy_join_fallback_witness :
    targetOf "" = "default_fallback_room" ∧
    (serverJoin initialServer 5 "").1.currentRoom 5 = some "default_fallback_room" ∧
    (serverJoin (serverJoin initialServer 5 "").1 6 "").1.rooms
      "default_fallback_room" = [5, 6] ∧
    (serverJoin (serverJoin initialServer 5 "").1 6 "").1.currentRoom 6 =
      some "default_fallback_room" :=
  falsy_join_fallback 5 6 (by decide)
